import Mathlib

/-!
Shallow embedding of the EEG preprocessing pipeline in `New Code/preprocess.py`
(repository: Variational-Autoencoder-for-EEG-analysis).

Multi-channel recordings are modelled as `List (List ℚ)` (channels × samples),
trial tensors as `List (List (List ℚ))` (trials × channels × samples).
Python / numpy primitives (slicing, boolean masks, `ndarray.resize`) are
modelled explicitly below.  Exceptions are modelled with `Except PyErr`.
-/

/-- Exceptions raised by the Python code under study. -/
inductive PyErr where
  | valueError
  | nameError
  | unboundLocalError
  | indexError
deriving DecidableEq

/-- Normalization of one endpoint of a Python slice `xs[a:b]`:
a negative index counts from the end, a positive one is clamped to the length. -/
def pyIdx (len : ℕ) (i : ℤ) : ℕ :=
  if i < 0 then ((len : ℤ) + i).toNat else min i.toNat len

/-- Python slice `xs[a:b]` (step 1) on a list. -/
def pySlice (xs : List α) (a b : ℤ) : List α :=
  (xs.take (pyIdx xs.length b)).drop (pyIdx xs.length a)

/-- Python `int(q)`: truncation of a rational toward zero (`Int.tdiv` is
C-style truncated division of the numerator by the denominator). -/
def truncQ (q : ℚ) : ℤ :=
  q.num.tdiv q.den

/-- Boolean-mask selection `xs[mask]` of numpy (selects the entries whose
mask bit is true, in order). -/
def npMask (mask : List Bool) (xs : List α) : List α :=
  ((xs.zip mask).filter (fun p => p.2)).map (fun p => p.1)

/-- Model of numpy `resize` to a 1-D shape `(n,)`: the flattened data is
truncated or zero-padded to exactly `n` entries. -/
def npResize1 (n : ℕ) (xs : List α) (pad : α) : List α :=
  xs.take n ++ List.replicate (n - xs.length) pad

/-- Fuel-driven splitting of a list into consecutive chunks of size `k`
(the fuel bounds the number of chunks; structural recursion keeps the
definition kernel-reducible). -/
def chunkGo (k : ℕ) : ℕ → List α → List (List α)
  | 0, _ => []
  | _ + 1, [] => []
  | fuel + 1, x :: xs => (x :: xs).take k :: chunkGo k fuel ((x :: xs).drop k)

/-- Split a list into consecutive chunks of `k` elements (`k = 0` gives `[]`). -/
def chunkList (k : ℕ) (xs : List α) : List (List α) :=
  if k = 0 then [] else chunkGo k xs.length xs

/-- Model of numpy `resize` of a row-major array to shape `(n, C, T)`:
the flattened data is truncated / zero-padded to `n*C*T` entries and
regrouped.  A zero dimension yields empty rows, as in numpy. -/
def npResize3 (n C T : ℕ) (flat : List ℚ) : List (List (List ℚ)) :=
  if C * T = 0 then List.replicate n (List.replicate C [])
  else (chunkList (C * T) (npResize1 (n * C * T) flat 0)).map (chunkList T)

/-- One run of a raw MOABB recording, as consumed by `get_trial_handmade`:
the continuous data (channels × samples), the `mne.find_events` result
(column 0 = onset sample, column 2 = label), the sampling frequency and
the channel names. -/
structure Run where
  data : List (List ℚ)
  events : List (ℕ × ℤ)
  sfreq : ℚ
  ch_names : List String
deriving DecidableEq

/-- Dataset configuration dictionary (the keys read or written by
`preprocess.py`).  `sampling_freq` is `Option`al because the key is first
written by `get_trial_handmade` itself. -/
structure DatasetConfig where
  subjects_list : List ℕ
  filter_data : Bool
  fmin : ℚ
  fmax : ℚ
  n_classes : ℕ
  resample_data : Bool
  resample_freq : ℚ
  length_trial : ℚ
  sampling_freq : Option ℚ
deriving DecidableEq

/-- Embedding of `divide_by_event(raw_run, events, config)` (preprocess.py,
lines 143-162).  `sampling_freq` and `length_trial` are the values of
`config['sampling_freq']` and `config['length_trial']` (the former is
always assigned by the caller just before the call, line 117).  For each
event the run is sliced from the onset to the next onset — or to `-1`,
one short of the end, for the last event — and the result is truncated by
the slice `[:, 0:int(sampling_freq * length_trial)]`. -/
def divide_by_event (run_data : List (List ℚ)) (events : List ℕ)
    (sampling_freq length_trial : ℚ) : List (List (List ℚ)) :=
  (List.range events.length).map (fun i =>
    let stop : ℤ := if i = events.length - 1 then -1 else (events.getD (i + 1) 0 : ℤ)
    run_data.map (fun ch =>
      pySlice (pySlice ch (events.getD i 0 : ℤ) stop) 0 (truncQ (sampling_freq * length_trial))))

/-- Variant of `divide_by_event` that follows the SPEC's words instead of the
source: "the end is either the next event's onset sample or end-of-recording
for the last event" — i.e. the last window runs to the very end of the
recording (slice endpoint `len` instead of `-1`).  Used only to compare the
spec against the code. -/
def divide_by_event_spec (run_data : List (List ℚ)) (events : List ℕ)
    (sampling_freq length_trial : ℚ) : List (List (List ℚ)) :=
  (List.range events.length).map (fun i =>
    run_data.map (fun ch =>
      let stop : ℤ := if i = events.length - 1 then (ch.length : ℤ) else (events.getD (i + 1) 0 : ℤ)
      pySlice (pySlice ch (events.getD i 0 : ℤ) stop) 0 (truncQ (sampling_freq * length_trial))))

/-- Config state after `get_trial_handmade` has run: line 117 executes once per
run, assigning `config['sampling_freq'] = sampling_freq` of that run; no other
key of the dictionary is ever written. -/
def configAfterGetTrialHandmade (runs : List Run) (config : DatasetConfig) : DatasetConfig :=
  runs.foldl (fun c r => { c with sampling_freq := some r.sfreq }) config

/-- Embedding of `get_trial_handmade(raw_data, config)` (preprocess.py, lines
99-140).  Per run: events and labels are read off `mne.find_events`, the data
is optionally band-pass filtered (`filt` stands for `mne`'s `Raw.filter`, which
changes sample values but not shapes), and `divide_by_event` produces one trial
per event.  The per-run results are collected and then reshaped by
`trials_matrix.resize(n_trials, shape[2], shape[3])` / `labels.resize(n_trials)`.
The `np.asarray` conversion is modelled for the rectangular case (equal event
counts and trial shapes across runs — for ragged input numpy's behaviour is
version-dependent and the theorems below assume rectangularity); `shape[2]` /
`shape[3]` then are the channel count and sample count of the first trial, and
their lookup fails with an `IndexError` when the array has fewer than four
dimensions (no runs, no trials in the rectangular case, or no channels).
`ch_names` of the last processed run is returned, and the config is returned
as mutated (key `sampling_freq`).

`runTrials` is the per-run body (lines 107-124): optional filtering followed
by `divide_by_event` on the event onsets. -/
def runTrials (filt : ℚ → ℚ → List (List ℚ) → List (List ℚ))
    (config : DatasetConfig) (run : Run) : List (List (List ℚ)) :=
  divide_by_event
    (if config.filter_data then filt config.fmin config.fmax run.data else run.data)
    (run.events.map Prod.fst) run.sfreq config.length_trial

/-- Embedding of `get_trial_handmade(raw_data, config)` proper; see the
comment on `runTrials` above for the modelling conventions. -/
def get_trial_handmade (filt : ℚ → ℚ → List (List ℚ) → List (List ℚ))
    (runs : List Run) (config : DatasetConfig) :
    Except PyErr (List (List (List ℚ)) × List ℤ × List String × DatasetConfig) :=
  let tlist := runs.map (runTrials filt config)
  let llist := runs.map (fun run => run.events.map Prod.snd)
  let n_trials := (runs.map (fun run => run.events.length)).sum
  match runs.getLast? with
  | none => .error .indexError
  | some lastRun =>
    match tlist.head? with
    | none => .error .indexError
    | some firstRunTrials =>
      match firstRunTrials.head? with
      | none => .error .indexError
      | some firstTrial =>
        match firstTrial.head? with
        | none => .error .indexError
        | some firstChannel =>
          let trials_matrix :=
            npResize3 n_trials firstTrial.length firstChannel.length tlist.flatten.flatten.flatten
          let labels := npResize1 n_trials llist.flatten 0
          .ok (trials_matrix, labels, lastRun.ch_names, configAfterGetTrialHandmade runs config)

/-- Raw data of one subject, keyed by session name (`raw_data['session_T']` /
`raw_data['session_E']`). -/
structure SubjData where
  session_T : List Run
  session_E : List Run

/-- Loop body of `get_moabb_data_handmade` (lines 71-89): for each subject the
train or test session is selected — any other `type_dataset` raises
`ValueError` — then `get_trial_handmade` runs and, for the BNCI2014001 dataset,
the channel axis is cut down to the first 22 channels
(`trials_matrix[:, 0:22, :]`, `ch_list[0:22]`).  The accumulators carry the
per-subject trials and labels and the current value of the `ch_list` variable
(`none` while still unassigned). -/
def handmadeGo (isBNCI : Bool) (raw_dataset : ℕ → SubjData)
    (filt : ℚ → ℚ → List (List ℚ) → List (List ℚ))
    (config : DatasetConfig) (type_dataset : String) :
    List ℕ → List (List (List (List ℚ))) → List (List ℤ) → Option (List String) →
    Except PyErr (List (List (List (List ℚ))) × List (List ℤ) × Option (List String))
  | [], accT, accL, chl => .ok (accT.reverse, accL.reverse, chl)
  | s :: rest, accT, accL, _ =>
    let rd := raw_dataset s
    if type_dataset = "train" then
      match get_trial_handmade filt rd.session_T config with
      | .error e => .error e
      | .ok (tm, lbl, chn, _) =>
        let tm' := if isBNCI then tm.map (fun t => pySlice t 0 22) else tm
        let chn' := if isBNCI then pySlice chn 0 22 else chn
        handmadeGo isBNCI raw_dataset filt config type_dataset rest (tm' :: accT) (lbl :: accL) (some chn')
    else if type_dataset = "test" then
      match get_trial_handmade filt rd.session_E config with
      | .error e => .error e
      | .ok (tm, lbl, chn, _) =>
        let tm' := if isBNCI then tm.map (fun t => pySlice t 0 22) else tm
        let chn' := if isBNCI then pySlice chn 0 22 else chn
        handmadeGo isBNCI raw_dataset filt config type_dataset rest (tm' :: accT) (lbl :: accL) (some chn')
    else .error .valueError

/-- Embedding of `get_moabb_data_handmade(dataset, config, type_dataset)`
(lines 58-97).  The `return` statement references the loop variable
`ch_list`; with an empty `subjects_list` that name was never assigned and
Python raises a `NameError`. -/
def get_moabb_data_handmade (isBNCI : Bool) (raw_dataset : ℕ → SubjData)
    (filt : ℚ → ℚ → List (List ℚ) → List (List ℚ))
    (config : DatasetConfig) (type_dataset : String) :
    Except PyErr (List (List (List (List ℚ))) × List (List ℤ) × List String) :=
  match handmadeGo isBNCI raw_dataset filt config type_dataset config.subjects_list [] [] none with
  | .error e => .error e
  | .ok (_, _, none) => .error .nameError
  | .ok (ts, ls, some chl) => .ok (ts, ls, chl)

/-- Embedding of the session-selection part of `get_moabb_data_automatic`
(lines 27-56): `paradigm.get_data` has already produced `raw_data`,
`raw_labels` and the per-row session column of `info`.  `idx_type` is
assigned only in the `'train'` and `'test'` branches; for any other
`type_dataset` the subsequent `raw_data[idx_type]` evaluates a local
variable that was never assigned (`UnboundLocalError`). -/
def get_moabb_data_automatic (raw_data : List α) (raw_labels : List ℤ)
    (info_session : List String) (type_dataset : String) :
    Except PyErr (List α × List ℤ) :=
  let idx_type : Option (List Bool) :=
    if type_dataset = "train" then some (info_session.map (fun s => s == "session_T"))
    else if type_dataset = "test" then some (info_session.map (fun s => s == "session_E"))
    else none
  match idx_type with
  | none => .error .unboundLocalError
  | some mask => .ok (npMask mask raw_data, npMask mask raw_labels)

/-- Embedding of `compute_stft(trials_matrix, sampling_freq)` (lines 171-189).
The scipy call `signal.stft(x, fs = sampling_freq, nperseg = sampling_freq)`
is abstracted as a parameter `stft fs nperseg x` returning the triple
`(f, t, Zxx)`; the code keeps only the third component, per trial per
channel.  The coefficient type `γ` is abstract: the code applies no
post-processing whatsoever to `Zxx`, so the embedding is parametric in it.
(The Python loops run over `shape[0]` and `shape[1]` of the rectangular
ndarray, i.e. over every trial and every channel, which is the double map.) -/
def compute_stft {γ : Type} (stft : ℚ → ℚ → List ℚ → List ℚ × List ℚ × γ)
    (trials_matrix : List (List (List ℚ))) (sampling_freq : ℚ) : List (List γ) :=
  trials_matrix.map (fun trial =>
    trial.map (fun x => (stft sampling_freq sampling_freq x).2.2))

/-- Shape (number of frequency bins, time-frame count per bin) of one STFT
coefficient matrix. -/
def stftShape (m : List (List (ℚ × ℚ))) : ℕ × List ℕ :=
  (m.length, m.map List.length)

/-- Embedding of `normalize_stft(stft_trials_matrix)` (lines 191-195).  The
outer loop runs over `shape[0]` (the trials); its first iteration evaluates
`stft_trials.shape[0]`, but `stft_trials` is an undefined name, so Python
raises a `NameError`.  With zero trials the loop body never runs and the
function falls through, returning `None`.  The body before the failing line
only reads, so the input is never modified. -/
def normalize_stft (stft_trials_matrix : List α) : Except PyErr Unit :=
  match stft_trials_matrix with
  | [] => .ok ()
  | _ :: _ => .error .nameError

/-- Plot configuration dictionary (the keys read by `extract_data_to_plot`). -/
structure PlotConfig where
  figsize : ℚ × ℚ
  ch_to_plot : List String
  label_to_plot : List ℤ
deriving DecidableEq

/-- Embedding of `config_plot()` (lines 200-209). -/
def config_plot : PlotConfig :=
  { figsize := (15, 10)
    ch_to_plot := ["C3", "Cz", "C4"]
    label_to_plot := [0, 1, 2] }

/-- Model of `data[idx_label].mean(0)` for a rectangular stack of C × T
matrices: the entrywise arithmetic mean, whose shape is read off the first
element exactly as numpy reads the ndarray's shape.  (`numpy` requires the
stack to be rectangular; the theorems below assume that.) -/
def meanAcrossTrials (ms : List (List (List ℚ))) : List (List ℚ) :=
  match ms with
  | [] => []
  | m :: _ =>
    (List.range m.length).map (fun c =>
      (List.range ((m.getD c []).length)).map (fun t =>
        (ms.map (fun mm => (mm.getD c []).getD t 0)).sum / (ms.length : ℚ)))

/-- Embedding of `extract_data_to_plot(data, ch_list, label_list, config)`
(lines 234-258).  For each label in `config['label_to_plot']`, the boolean
mask `label_list == label` selects the trials with that label and
`data[idx_label].mean(0)` averages them; then for each requested channel name
the mask `ch_list == ch` (numpy elementwise string comparison) selects the
matching rows of the average.  The trailing `.squeeze()` only drops
singleton axes of the selected block and is kept as the selected row list. -/
def extract_data_to_plot (data : List (List (List ℚ))) (ch_list : List String)
    (label_list : List ℤ) (config : PlotConfig) : List (List (List (List ℚ))) :=
  config.label_to_plot.map (fun label =>
    let selected := ((data.zip label_list).filter (fun p => p.2 == label)).map (fun p => p.1)
    let average_per_label := meanAcrossTrials selected
    config.ch_to_plot.map (fun ch =>
      ((average_per_label.zip ch_list).filter (fun p => p.2 == ch)).map (fun p => p.1)))

/-! ## Basic lemmas about the Python slicing primitives -/

theorem pyIdx_natCast (len b : ℕ) : pyIdx len (b : ℤ) = min b len := by
  simp [pyIdx]

theorem take_min_length (xs : List α) (b : ℕ) : xs.take (min b xs.length) = xs.take b := by
  rcases le_total b xs.length with h | h
  · rw [min_eq_left h]
  · rw [min_eq_right h, List.take_length, List.take_of_length_le h]

theorem drop_min_length (xs z : List α) (a : ℕ) (hz : z.length ≤ xs.length) :
    z.drop (min a xs.length) = z.drop a := by
  rcases le_total a xs.length with h | h
  · rw [min_eq_left h]
  · rw [min_eq_right h, List.drop_eq_nil_of_le hz, List.drop_eq_nil_of_le (le_trans hz h)]

theorem pySlice_natCast (xs : List α) (a b : ℕ) :
    pySlice xs (a : ℤ) (b : ℤ) = (xs.take b).drop a := by
  rw [pySlice, pyIdx_natCast, pyIdx_natCast, take_min_length]
  exact drop_min_length xs _ a (by simp)

theorem pySlice_neg_one (xs : List α) (a : ℕ) :
    pySlice xs (a : ℤ) (-1) = (xs.take (xs.length - 1)).drop a := by
  have h1 : pyIdx xs.length (-1) = xs.length - 1 := by
    simp only [pyIdx, if_pos (by omega : (-1 : ℤ) < 0)]
    omega
  rw [pySlice, h1, pyIdx_natCast]
  exact drop_min_length xs _ a (by simp)

theorem pySlice_zero_nonneg (y : List α) (n : ℤ) (hn : 0 ≤ n) :
    pySlice y 0 n = y.take n.toNat := by
  have h0 : pyIdx y.length 0 = 0 := by simp [pyIdx]
  have h1 : pyIdx y.length n = min n.toNat y.length := by
    simp only [pyIdx, if_neg (by omega : ¬ n < 0)]
  rw [pySlice, h0, h1, take_min_length, List.drop_zero]

theorem divide_by_event_length (run_data : List (List ℚ)) (events : List ℕ) (sf lt : ℚ) :
    (divide_by_event run_data events sf lt).length = events.length := by
  simp [divide_by_event]

/-- Window characterization of `divide_by_event`: trial `i` covers the samples
from the onset of event `i` up to the onset of event `i+1` (exclusive) — or,
for the last event, up to one sample before the end of the recording — and is
then truncated to the first `int(sampling_freq * length_trial)` samples. -/
theorem divide_by_event_getD (run_data : List (List ℚ)) (events : List ℕ)
    (sf lt : ℚ) (i : ℕ) (hi : i < events.length) (hn : 0 ≤ truncQ (sf * lt)) :
    (divide_by_event run_data events sf lt).getD i [] =
      run_data.map (fun ch =>
        ((ch.take (if i = events.length - 1 then ch.length - 1 else events.getD (i + 1) 0)).drop
            (events.getD i 0)).take (truncQ (sf * lt)).toNat) := by
  rw [List.getD_eq_getElem?_getD, divide_by_event]
  simp only [List.getElem?_map, List.getElem?_range hi, Option.map_some', Option.getD_some]
  apply List.map_congr_left
  intro ch _
  by_cases hlast : i = events.length - 1
  · simp only [if_pos hlast]
    rw [pySlice_neg_one, pySlice_zero_nonneg _ _ hn]
  · simp only [if_neg hlast]
    rw [pySlice_natCast, pySlice_zero_nonneg _ _ hn]

/-! ## C1: windows produced by divide_by_event -/

/-- C1 (amended): for every recording and event list, trial `i` of
`divide_by_event` starts at the onset sample of event `i` and ends at the
onset sample of event `i+1`; for the LAST event the window ends one sample
BEFORE the end of the recording (the slice `events[i]:-1` drops the final
sample) — not at end-of-recording as the claim states.  Each window is then
truncated to the first `int(sampling_freq * length_trial)` samples, and one
trial is produced per event. -/
theorem C1_divide_by_event_windows (run_data : List (List ℚ)) (events : List ℕ)
    (sf lt : ℚ) (i : ℕ) (hi : i < events.length) (hn : 0 ≤ truncQ (sf * lt)) :
    (divide_by_event run_data events sf lt).length = events.length ∧
    (divide_by_event run_data events sf lt).getD i [] =
      run_data.map (fun ch =>
        ((ch.take (if i = events.length - 1 then ch.length - 1 else events.getD (i + 1) 0)).drop
            (events.getD i 0)).take (truncQ (sf * lt)).toNat) :=
  ⟨divide_by_event_length run_data events sf lt,
   divide_by_event_getD run_data events sf lt i hi hn⟩

/-- Witness for C1 at a concrete input: recording `[[1,2,3,4,5]]`, events at
samples 0 and 2, `sampling_freq = 1`, `length_trial = 2`; the last trial is
the window `[2:4]` (end-of-recording minus one) truncated to 2 samples. -/
theorem C1_divide_by_event_windows_witness :
    (divide_by_event [[(1 : ℚ), 2, 3, 4, 5]] [0, 2] 1 2).length = [0, 2].length ∧
    (divide_by_event [[(1 : ℚ), 2, 3, 4, 5]] [0, 2] 1 2).getD 1 [] =
      [[(1 : ℚ), 2, 3, 4, 5]].map (fun ch =>
        ((ch.take (if 1 = [0, 2].length - 1 then ch.length - 1 else [0, 2].getD 2 0)).drop
            ([0, 2].getD 1 0)).take (truncQ ((1 : ℚ) * 2)).toNat) :=
  C1_divide_by_event_windows [[(1 : ℚ), 2, 3, 4, 5]] [0, 2] 1 2 1 (by decide)
    (by simp only [show (1 : ℚ) * 2 = 2 from by norm_num]; decide)

/-- Counterexample to C1 as stated: with one channel of 5 samples, a single
event at sample 0 and a truncation bound of 10, the code's window is
`[0:-1]` = the first 4 samples, while the claim's "ends at end-of-recording"
would give all 5 samples. -/
theorem C1_counterexample :
    divide_by_event [[(10 : ℚ), 20, 30, 40, 50]] [0] 1 10 = [[[10, 20, 30, 40]]] ∧
    divide_by_event_spec [[(10 : ℚ), 20, 30, 40, 50]] [0] 1 10 = [[[10, 20, 30, 40, 50]]] ∧
    divide_by_event [[(10 : ℚ), 20, 30, 40, 50]] [0] 1 10 ≠
      divide_by_event_spec [[(10 : ℚ), 20, 30, 40, 50]] [0] 1 10 := by
  simp only [divide_by_event, divide_by_event_spec, show (1 : ℚ) * 10 = 10 from by norm_num]
  refine ⟨by decide, by decide, by decide⟩

/-! ## C2: truncation and shape of the produced trials -/

/-- C2 (amended): every trial produced by `divide_by_event` keeps the channel
count of the recording, and each channel is truncated to AT MOST
`int(sampling_freq * length_trial)` samples — not always exactly that many,
as the claim states.  When moreover every inter-event window spans at least
that many samples (and the last onset leaves that many samples before
end-of-recording minus one), every channel has EXACTLY that length, so all
trials share the shape `(channels, sampling_rate * trial_length)`. -/
theorem C2_divide_by_event_shape (run_data : List (List ℚ)) (events : List ℕ)
    (sf lt : ℚ) (L : ℕ) (hn : 0 ≤ truncQ (sf * lt))
    (hL : ∀ ch ∈ run_data, ch.length = L) :
    (∀ trial ∈ divide_by_event run_data events sf lt,
        trial.length = run_data.length ∧
        ∀ ch ∈ trial, ch.length ≤ (truncQ (sf * lt)).toNat) ∧
    ((∀ i, i + 1 < events.length →
        events.getD i 0 + (truncQ (sf * lt)).toNat ≤ events.getD (i + 1) 0 ∧
        events.getD (i + 1) 0 ≤ L) →
      (events ≠ [] →
        events.getD (events.length - 1) 0 + (truncQ (sf * lt)).toNat + 1 ≤ L) →
      ∀ trial ∈ divide_by_event run_data events sf lt,
        ∀ ch ∈ trial, ch.length = (truncQ (sf * lt)).toNat) := by
  constructor
  · intro trial htrial
    rw [divide_by_event] at htrial
    simp only [List.mem_map, List.mem_range] at htrial
    obtain ⟨i, hi, rfl⟩ := htrial
    constructor
    · simp
    · intro ch hch
      simp only [List.mem_map] at hch
      obtain ⟨ch₀, _, rfl⟩ := hch
      rw [pySlice_zero_nonneg _ _ hn]
      simp [List.length_take]
  · intro hgap hlast trial htrial ch hch
    rw [divide_by_event] at htrial
    simp only [List.mem_map, List.mem_range] at htrial
    obtain ⟨i, hi, rfl⟩ := htrial
    simp only [List.mem_map] at hch
    obtain ⟨ch₀, hch₀, rfl⟩ := hch
    have hL₀ := hL ch₀ hch₀
    rw [pySlice_zero_nonneg _ _ hn]
    by_cases hl : i = events.length - 1
    · simp only [if_pos hl]
      rw [pySlice_neg_one]
      have hev : events ≠ [] := by
        intro h
        rw [h] at hi
        exact absurd hi (by simp)
      have := hlast hev
      rw [← hl] at this
      simp only [List.length_take, List.length_drop, hL₀]
      omega
    · simp only [if_neg hl]
      rw [pySlice_natCast]
      have hi1 : i + 1 < events.length := by omega
      have := hgap i hi1
      simp only [List.length_take, List.length_drop, hL₀]
      omega

/-- Witness for C2 at a concrete input: recording of one channel with 10
samples, events at 0 and 3, `sampling_freq = 1`, `length_trial = 3`; the
windows `[0:3]` and `[3:9]` both hold at least 3 samples, so both trials
have exactly 3 samples. -/
theorem C2_divide_by_event_shape_witness :
    (∀ trial ∈ divide_by_event [[(1 : ℚ), 2, 3, 4, 5, 6, 7, 8, 9, 10]] [0, 3] 1 3,
        trial.length = [[(1 : ℚ), 2, 3, 4, 5, 6, 7, 8, 9, 10]].length ∧
        ∀ ch ∈ trial, ch.length ≤ (truncQ ((1 : ℚ) * 3)).toNat) ∧
    ((∀ i, i + 1 < [0, 3].length →
        [0, 3].getD i 0 + (truncQ ((1 : ℚ) * 3)).toNat ≤ [0, 3].getD (i + 1) 0 ∧
        [0, 3].getD (i + 1) 0 ≤ 10) →
      ([0, 3] ≠ [] →
        [0, 3].getD ([0, 3].length - 1) 0 + (truncQ ((1 : ℚ) * 3)).toNat + 1 ≤ 10) →
      ∀ trial ∈ divide_by_event [[(1 : ℚ), 2, 3, 4, 5, 6, 7, 8, 9, 10]] [0, 3] 1 3,
        ∀ ch ∈ trial, ch.length = (truncQ ((1 : ℚ) * 3)).toNat) :=
  C2_divide_by_event_shape [[(1 : ℚ), 2, 3, 4, 5, 6, 7, 8, 9, 10]] [0, 3] 1 3 10
    (by simp only [show (1 : ℚ) * 3 = 3 from by norm_num]; decide)
    (by decide)

/-- Counterexample to C2 as stated: with events at samples 0 and 2 and a
truncation bound of `int(1 * 5) = 5` samples, the first inter-event window
holds only 2 samples, so the first trial has 2 samples while the second has
5 — the trials do NOT all have the claimed identical sample length. -/
theorem C2_counterexample :
    ((divide_by_event [[(1 : ℚ), 2, 3, 4, 5, 6, 7, 8, 9, 10]] [0, 2] 1 5).map
        (fun t => t.map List.length)) = [[2], [5]] ∧
    (truncQ ((1 : ℚ) * 5)).toNat = 5 ∧ (2 : ℕ) ≠ 5 := by
  simp only [divide_by_event, show (1 : ℚ) * 5 = 5 from by norm_num]
  refine ⟨by decide, by decide, by decide⟩

/-! ## Lemmas about the numpy resize model -/

theorem chunkGo_nil {α : Type} (k fuel : ℕ) : chunkGo k fuel ([] : List α) = [] := by
  cases fuel <;> rfl

theorem chunkGo_flatten {α : Type} (k : ℕ) (hk : 0 < k) (xss : List (List α)) :
    ∀ fuel : ℕ, (∀ xs ∈ xss, xs.length = k) → xss.flatten.length ≤ fuel →
      chunkGo k fuel xss.flatten = xss := by
  induction xss with
  | nil => intro fuel _ _; simp only [List.flatten_nil]; exact chunkGo_nil k fuel
  | cons x xss ih =>
    intro fuel hall hfuel
    have hx : x.length = k := hall x (by simp)
    obtain ⟨a, as, rfl⟩ : ∃ a as, x = a :: as := by
      cases x with
      | nil => exfalso; simp at hx; omega
      | cons a as => exact ⟨a, as, rfl⟩
    have hflat : ((a :: as) :: xss).flatten = (a :: as) ++ xss.flatten := by simp
    cases fuel with
    | zero =>
      exfalso
      rw [hflat] at hfuel
      simp at hfuel
    | succ f =>
      rw [hflat]
      have ht : ((a :: as) ++ xss.flatten).take k = a :: as := by
        rw [← hx]; exact List.take_left _ _
      have hd : ((a :: as) ++ xss.flatten).drop k = xss.flatten := by
        rw [← hx]; exact List.drop_left _ _
      have hstep : chunkGo k (f + 1) ((a :: as) ++ xss.flatten) =
          ((a :: as) ++ xss.flatten).take k ::
            chunkGo k f (((a :: as) ++ xss.flatten).drop k) := rfl
      rw [hstep, ht, hd, ih f (fun xs h => hall xs (List.mem_cons_of_mem _ h))]
      rw [hflat] at hfuel
      simp only [List.length_append, List.length_cons] at hfuel
      omega

theorem chunkList_flatten {α : Type} (k : ℕ) (hk : 0 < k) (xss : List (List α))
    (hall : ∀ xs ∈ xss, xs.length = k) : chunkList k xss.flatten = xss := by
  rw [chunkList, if_neg (by omega)]
  exact chunkGo_flatten k hk xss _ hall le_rfl

theorem npResize1_eq_self {α : Type} (n : ℕ) (xs : List α) (pad : α) (h : xs.length = n) :
    npResize1 n xs pad = xs := by
  subst h
  simp [npResize1]

theorem flatten_length_of_rect {α : Type} (trials : List (List (List α))) (C T : ℕ)
    (hsh : ∀ t ∈ trials, t.length = C ∧ ∀ ch ∈ t, ch.length = T) :
    ∀ y ∈ trials.map List.flatten, y.length = C * T := by
  intro y hy
  simp only [List.mem_map] at hy
  obtain ⟨t, ht, rfl⟩ := hy
  rw [List.length_flatten]
  have h1 : t.map List.length = t.map (fun _ => T) :=
    List.map_congr_left (fun ch hch => (hsh t ht).2 ch hch)
  rw [h1, List.map_const', List.sum_replicate, smul_eq_mul, (hsh t ht).1]

/-- Central fact about the resize step of `get_trial_handmade`: on a
rectangular stack of trials, flattening row-major and refilling into shape
`(count, C, T)` is the identity. -/
theorem npResize3_eq_self (trials : List (List (List ℚ))) (C T : ℕ)
    (hC : 0 < C) (hT : 0 < T)
    (hsh : ∀ t ∈ trials, t.length = C ∧ ∀ ch ∈ t, ch.length = T) :
    npResize3 trials.length C T trials.flatten.flatten = trials := by
  have hCT : ¬ (C * T = 0) := by
    intro h
    rcases Nat.mul_eq_zero.mp h with h' | h' <;> omega
  rw [npResize3, if_neg hCT, List.flatten_flatten]
  have hlen := flatten_length_of_rect trials C T hsh
  have hflatlen : (trials.map List.flatten).flatten.length = trials.length * (C * T) := by
    rw [List.length_flatten]
    have h1 : (trials.map List.flatten).map List.length =
        (trials.map List.flatten).map (fun _ => C * T) :=
      List.map_congr_left (fun y hy => hlen y hy)
    rw [h1, List.map_const', List.sum_replicate, smul_eq_mul, List.length_map]
  rw [npResize1_eq_self _ _ _ (by rw [hflatlen, Nat.mul_assoc])]
  rw [chunkList_flatten (C * T) (by omega) _ hlen, List.map_map]
  conv_rhs => rw [← List.map_id trials]
  apply List.map_congr_left
  intro t ht
  exact chunkList_flatten T hT t (fun ch hch => (hsh t ht).2 ch hch)

theorem runTrials_length (filt : ℚ → ℚ → List (List ℚ) → List (List ℚ))
    (config : DatasetConfig) (run : Run) :
    (runTrials filt config run).length = run.events.length := by
  simp [runTrials, divide_by_event_length]

/-! ## C3: trial counts and label alignment of get_trial_handmade -/

/-- C3: for a multi-run raw dataset whose runs are rectangular (`k` events per
run, every produced trial `C × T` with `C, T > 0` — the shape under which
numpy's `asarray`/`resize` round-trip is well defined), `get_trial_handmade`
returns exactly the per-run trials concatenated in run order, the per-run event
labels concatenated in the same order, the last run's channel names and the
mutated config.  In particular the trial count equals the total event count
across runs and the label vector has the same length as the trial axis, with
the i-th label belonging to the i-th trial (label order = event order). -/
theorem C3_get_trial_handmade (filt : ℚ → ℚ → List (List ℚ) → List (List ℚ))
    (runs : List Run) (config : DatasetConfig) (k C T : ℕ)
    (hne : runs ≠ [])
    (hk : ∀ r ∈ runs, r.events.length = k) (hk0 : 0 < k)
    (hC : 0 < C) (hT : 0 < T)
    (hsh : ∀ t ∈ (runs.map (runTrials filt config)).flatten,
        t.length = C ∧ ∀ ch ∈ t, ch.length = T) :
    get_trial_handmade filt runs config =
      .ok ((runs.map (runTrials filt config)).flatten,
           (runs.map (fun r => r.events.map Prod.snd)).flatten,
           (runs.getLast hne).ch_names,
           configAfterGetTrialHandmade runs config) ∧
    ((runs.map (runTrials filt config)).flatten).length =
      (runs.map (fun r => r.events.length)).sum ∧
    ((runs.map (fun r => r.events.map Prod.snd)).flatten).length =
      ((runs.map (runTrials filt config)).flatten).length := by
  have htlen : ((runs.map (runTrials filt config)).flatten).length =
      (runs.map (fun r => r.events.length)).sum := by
    rw [List.length_flatten, List.map_map]
    congr 1
    apply List.map_congr_left
    intro r _
    simp [runTrials_length]
  have hllen : ((runs.map (fun r => r.events.map Prod.snd)).flatten).length =
      (runs.map (fun r => r.events.length)).sum := by
    rw [List.length_flatten, List.map_map]
    congr 1
    apply List.map_congr_left
    intro r _
    simp
  refine ⟨?_, htlen, by rw [hllen, htlen]⟩
  obtain ⟨r₀, rest, rfl⟩ : ∃ r₀ rest, runs = r₀ :: rest := by
    cases runs with
    | nil => exact absurd rfl hne
    | cons a l => exact ⟨a, l, rfl⟩
  have h0len : (runTrials filt config r₀).length = k := by
    rw [runTrials_length]; exact hk r₀ (by simp)
  obtain ⟨t₀, ts, hts⟩ : ∃ t₀ ts, runTrials filt config r₀ = t₀ :: ts := by
    cases hcase : runTrials filt config r₀ with
    | nil => rw [hcase] at h0len; simp at h0len; omega
    | cons a l => exact ⟨a, l, rfl⟩
  have ht₀mem : t₀ ∈ ((r₀ :: rest).map (runTrials filt config)).flatten := by
    simp only [List.map_cons, List.flatten_cons, hts]
    exact List.mem_append_left _ (by simp)
  have ht₀C : t₀.length = C := (hsh t₀ ht₀mem).1
  obtain ⟨c₀, cs, hcs⟩ : ∃ c₀ cs, t₀ = c₀ :: cs := by
    cases hcase : t₀ with
    | nil => rw [hcase] at ht₀C; simp at ht₀C; omega
    | cons a l => exact ⟨a, l, rfl⟩
  have hc₀T : c₀.length = T := (hsh t₀ ht₀mem).2 c₀ (by rw [hcs]; simp)
  have e1 : (r₀ :: rest).getLast? = some ((r₀ :: rest).getLast hne) :=
    List.getLast?_eq_getLast_of_ne_nil hne
  have e2 : ((r₀ :: rest).map (runTrials filt config)).head? = some (t₀ :: ts) := by
    simp [hts]
  have e4 : t₀.head? = some c₀ := by rw [hcs]; rfl
  rw [get_trial_handmade]
  simp only [e1, e2, List.head?_cons, e4]
  have hresize :
      npResize3 ((((r₀ :: rest).map (fun run => run.events.length)).sum))
          t₀.length c₀.length
          (((r₀ :: rest).map (runTrials filt config)).flatten.flatten.flatten) =
        ((r₀ :: rest).map (runTrials filt config)).flatten := by
    rw [← htlen, ht₀C, hc₀T]
    exact npResize3_eq_self _ C T hC hT hsh
  rw [npResize1_eq_self _ _ _ (by rw [hllen]), hresize]

/-- Identity stand-in for the band-pass filter, used in concrete witnesses
(`filter_data` is false in the witness config, so it is never applied). -/
def wFilt : ℚ → ℚ → List (List ℚ) → List (List ℚ) := fun _ _ d => d

/-- Concrete two-channel run with events at samples 0 and 2 (labels 5, 6). -/
def wRun1 : Run :=
  { data := [[1, 2, 3, 4, 5, 6, 7], [10, 20, 30, 40, 50, 60, 70]]
    events := [(0, 5), (2, 6)]
    sfreq := 1
    ch_names := ["a", "b"] }

/-- Concrete two-channel run with events at samples 1 and 3 (labels 7, 8). -/
def wRun2 : Run :=
  { data := [[8, 9, 10, 11, 12, 13, 14], [80, 90, 100, 110, 120, 130, 140]]
    events := [(1, 7), (3, 8)]
    sfreq := 1
    ch_names := ["a", "b"] }

/-- Concrete dataset config for witnesses: no filtering, `length_trial = 2`. -/
def wConfig : DatasetConfig :=
  { subjects_list := [1]
    filter_data := false
    fmin := 0
    fmax := 0
    n_classes := 2
    resample_data := false
    resample_freq := 0
    length_trial := 2
    sampling_freq := none }

/-- Witness for C3 on two concrete runs of two events each (k = C = T = 2). -/
theorem C3_get_trial_handmade_witness :
    get_trial_handmade wFilt [wRun1, wRun2] wConfig =
      .ok (([wRun1, wRun2].map (runTrials wFilt wConfig)).flatten,
           ([wRun1, wRun2].map (fun r => r.events.map Prod.snd)).flatten,
           ([wRun1, wRun2].getLast (by simp)).ch_names,
           configAfterGetTrialHandmade [wRun1, wRun2] wConfig) ∧
    (([wRun1, wRun2].map (runTrials wFilt wConfig)).flatten).length =
      ([wRun1, wRun2].map (fun r => r.events.length)).sum ∧
    (([wRun1, wRun2].map (fun r => r.events.map Prod.snd)).flatten).length =
      (([wRun1, wRun2].map (runTrials wFilt wConfig)).flatten).length :=
  C3_get_trial_handmade wFilt [wRun1, wRun2] wConfig 2 2 2
    (by simp) (by with_unfolding_all decide) (by decide) (by decide) (by decide)
    (by with_unfolding_all decide)

/-! ## C9: the config side effect of get_trial_handmade -/

theorem configAfterGetTrialHandmade_eq (runs : List Run) (config : DatasetConfig)
    (r : Run) (hlast : runs.getLast? = some r) :
    configAfterGetTrialHandmade runs config = { config with sampling_freq := some r.sfreq } := by
  induction runs generalizing config with
  | nil => simp at hlast
  | cons a l ih =>
    cases l with
    | nil =>
      simp only [List.getLast?_singleton, Option.some.injEq] at hlast
      subst hlast
      rfl
    | cons b m =>
      rw [List.getLast?_cons_cons] at hlast
      show configAfterGetTrialHandmade (b :: m) { config with sampling_freq := some a.sfreq } = _
      rw [ih _ hlast]

/-- C9: `get_trial_handmade` writes exactly one key of the caller's config,
`sampling_freq`, setting it to the sampling frequency of the LAST processed
run (line 117 runs once per run, so the final value is the last run's), and
leaves every other key unchanged.  Whenever the function returns normally,
the config it hands back is precisely this mutated config — the value that
`download_preprocess_and_visualize` later reads as
`dataset_config['sampling_freq']`. -/
theorem C9_get_trial_handmade_config_effect (runs : List Run) (config : DatasetConfig)
    (r : Run) (hlast : runs.getLast? = some r) :
    (configAfterGetTrialHandmade runs config).sampling_freq = some r.sfreq ∧
    (configAfterGetTrialHandmade runs config).subjects_list = config.subjects_list ∧
    (configAfterGetTrialHandmade runs config).filter_data = config.filter_data ∧
    (configAfterGetTrialHandmade runs config).fmin = config.fmin ∧
    (configAfterGetTrialHandmade runs config).fmax = config.fmax ∧
    (configAfterGetTrialHandmade runs config).n_classes = config.n_classes ∧
    (configAfterGetTrialHandmade runs config).resample_data = config.resample_data ∧
    (configAfterGetTrialHandmade runs config).resample_freq = config.resample_freq ∧
    (configAfterGetTrialHandmade runs config).length_trial = config.length_trial ∧
    ∀ (filt : ℚ → ℚ → List (List ℚ) → List (List ℚ))
      (out : List (List (List ℚ)) × List ℤ × List String × DatasetConfig),
      get_trial_handmade filt runs config = .ok out →
        out.2.2.2 = configAfterGetTrialHandmade runs config := by
  rw [configAfterGetTrialHandmade_eq runs config r hlast]
  refine ⟨rfl, rfl, rfl, rfl, rfl, rfl, rfl, rfl, rfl, ?_⟩
  intro filt out h
  rw [← configAfterGetTrialHandmade_eq runs config r hlast]
  simp only [get_trial_handmade] at h
  split at h
  · exact absurd h (by simp)
  · split at h
    · exact absurd h (by simp)
    · split at h
      · exact absurd h (by simp)
      · split at h
        · exact absurd h (by simp)
        · injection h with h'
          rw [← h']

/-- Witness for C9 on [wRun1, wRun2]: the written key is the last run's
sampling frequency and all other keys keep their wConfig values. -/
theorem C9_get_trial_handmade_config_effect_witness :
    (configAfterGetTrialHandmade [wRun1, wRun2] wConfig).sampling_freq = some wRun2.sfreq ∧
    (configAfterGetTrialHandmade [wRun1, wRun2] wConfig).subjects_list = wConfig.subjects_list ∧
    (configAfterGetTrialHandmade [wRun1, wRun2] wConfig).filter_data = wConfig.filter_data ∧
    (configAfterGetTrialHandmade [wRun1, wRun2] wConfig).fmin = wConfig.fmin ∧
    (configAfterGetTrialHandmade [wRun1, wRun2] wConfig).fmax = wConfig.fmax ∧
    (configAfterGetTrialHandmade [wRun1, wRun2] wConfig).n_classes = wConfig.n_classes ∧
    (configAfterGetTrialHandmade [wRun1, wRun2] wConfig).resample_data = wConfig.resample_data ∧
    (configAfterGetTrialHandmade [wRun1, wRun2] wConfig).resample_freq = wConfig.resample_freq ∧
    (configAfterGetTrialHandmade [wRun1, wRun2] wConfig).length_trial = wConfig.length_trial ∧
    ∀ (filt : ℚ → ℚ → List (List ℚ) → List (List ℚ))
      (out : List (List (List ℚ)) × List ℤ × List String × DatasetConfig),
      get_trial_handmade filt [wRun1, wRun2] wConfig = .ok out →
        out.2.2.2 = configAfterGetTrialHandmade [wRun1, wRun2] wConfig :=
  C9_get_trial_handmade_config_effect [wRun1, wRun2] wConfig wRun2 (by decide)

/-! ## C4: behaviour on an invalid type_dataset -/

/-- C4 (amended): for a `type_dataset` that is neither `"train"` nor `"test"`,
neither fetch function returns data, but they fail differently:
`get_moabb_data_handmade` (with a nonempty `subjects_list`) raises the
explicit `ValueError` of its validation branch, while
`get_moabb_data_automatic` has no validation branch at all and instead
crashes with an `UnboundLocalError` when `raw_data[idx_type]` reads the
never-assigned mask variable — not with an invalid-argument error. -/
theorem C4_type_dataset_validation {α : Type} (isBNCI : Bool)
    (raw_dataset : ℕ → SubjData) (filt : ℚ → ℚ → List (List ℚ) → List (List ℚ))
    (config : DatasetConfig) (td : String)
    (raw_data : List α) (raw_labels : List ℤ) (info_session : List String)
    (h1 : td ≠ "train") (h2 : td ≠ "test") (hs : config.subjects_list ≠ []) :
    get_moabb_data_handmade isBNCI raw_dataset filt config td = .error .valueError ∧
    get_moabb_data_automatic raw_data raw_labels info_session td =
      .error .unboundLocalError := by
  constructor
  · obtain ⟨s, rest, hsub⟩ : ∃ s rest, config.subjects_list = s :: rest := by
      cases hcase : config.subjects_list with
      | nil => exact absurd hcase hs
      | cons a l => exact ⟨a, l, rfl⟩
    rw [get_moabb_data_handmade, hsub, handmadeGo, if_neg h1, if_neg h2]
  · rw [get_moabb_data_automatic]
    simp only [if_neg h1, if_neg h2]

/-- Witness for C4 at the concrete invalid value `"validation"`. -/
theorem C4_type_dataset_validation_witness :
    get_moabb_data_handmade false (fun _ => ⟨[], []⟩) wFilt wConfig "validation" =
      .error .valueError ∧
    get_moabb_data_automatic ([] : List ℕ) [] [] "validation" =
      .error .unboundLocalError :=
  C4_type_dataset_validation false (fun _ => ⟨[], []⟩) wFilt wConfig "validation"
    ([] : List ℕ) [] [] (by decide) (by decide) (by decide)

/-- Counterexample to C4 as stated: at `type_dataset = "validation"` the
automatic fetcher fails with an `UnboundLocalError` (the unassigned
`idx_type`), which is NOT the `ValueError` that the code's own validation
branch (the embedding of "InvalidArgumentError") raises — so it is false
that every data-fetch function fails with an invalid-argument error. -/
theorem C4_counterexample :
    get_moabb_data_automatic ([] : List ℕ) [] [] "validation" =
      .error .unboundLocalError ∧
    PyErr.unboundLocalError ≠ PyErr.valueError := by
  exact ⟨rfl, by decide⟩

/-! ## C5 and C6: the spectral transform -/

/-- C5: `compute_stft` produces one STFT per trial (outer length) and per
channel (inner length), each computed by `signal.stft(x, fs, nperseg = fs)`
— the analysis-window argument equals the sampling rate — and the entry at
`(i, j)` is exactly the third component (the raw coefficient matrix) of the
library call on channel `j` of trial `i`: no normalization, baseline removal
or magnitude conversion is applied (the statement holds for an ARBITRARY
coefficient type `γ`, so no post-processing of the coefficients is even
expressible). -/
theorem C5_compute_stft_raw {γ : Type} (stft : ℚ → ℚ → List ℚ → List ℚ × List ℚ × γ)
    (trials : List (List (List ℚ))) (fs : ℚ) :
    (compute_stft stft trials fs).length = trials.length ∧
    (∀ i, i < trials.length →
      ((compute_stft stft trials fs).getD i []).length = (trials.getD i []).length) ∧
    (∀ i j (d : γ), i < trials.length → j < (trials.getD i []).length →
      ((compute_stft stft trials fs).getD i []).getD j d =
        (stft fs fs ((trials.getD i []).getD j [])).2.2) := by
  refine ⟨by simp [compute_stft], ?_, ?_⟩
  · intro i hi
    rw [List.getD_eq_getElem _ _ (by simpa [compute_stft] using hi),
      List.getD_eq_getElem _ _ hi]
    simp [compute_stft]
  · intro i j d hi hj
    have e1 : (compute_stft stft trials fs).getD i [] =
        List.map (fun x => (stft fs fs x).2.2) (trials.getD i []) := by
      rw [List.getD_eq_getElem _ _ (by simpa [compute_stft] using hi),
        List.getD_eq_getElem _ _ hi]
      simp [compute_stft]
    rw [e1, List.getD_eq_getElem _ _ (by simpa using hj),
      List.getD_eq_getElem _ _ hj, List.getElem_map]

/-- Witness for C5 on a concrete trial tensor and a concrete stand-in for
`signal.stft` with natural-number "coefficients". -/
theorem C5_compute_stft_raw_witness :
    ((compute_stft (fun a b x => ([a], [b], x.length + 1)) [[[1, 2], [3]]] 7).getD 0 []).getD 1 0 =
      ((fun (a b : ℚ) (x : List ℚ) => ([a], [b], x.length + 1)) 7 7
        (([[[(1 : ℚ), 2], [3]]].getD 0 []).getD 1 [])).2.2 :=
  (C5_compute_stft_raw (fun a b x => ([a], [b], x.length + 1)) [[[1, 2], [3]]] 7).2.2
    0 1 0 (by decide) (by decide)

/-- C6: for any trial tensor whose channels all hold `L` samples and any
`stft` routine whose output shape depends only on the input length (true of
`scipy.signal.stft` for fixed `fs` and `nperseg`), every coefficient matrix
produced by `compute_stft` has one and the same shape — the same number of
frequency bins and of time frames for every (trial, channel) pair. -/
theorem C6_compute_stft_uniform_shape
    (stft : ℚ → ℚ → List ℚ → List ℚ × List ℚ × List (List (ℚ × ℚ)))
    (trials : List (List (List ℚ))) (fs : ℚ) (L : ℕ)
    (hL : ∀ trial ∈ trials, ∀ ch ∈ trial, ch.length = L)
    (hstft : ∀ x y : List ℚ, x.length = y.length →
      stftShape (stft fs fs x).2.2 = stftShape (stft fs fs y).2.2) :
    ∀ trialOut ∈ compute_stft stft trials fs, ∀ c ∈ trialOut,
      stftShape c = stftShape (stft fs fs (List.replicate L 0)).2.2 := by
  intro trialOut hto c hc
  simp only [compute_stft, List.mem_map] at hto
  obtain ⟨trial, htrial, rfl⟩ := hto
  simp only [List.mem_map] at hc
  obtain ⟨x, hx, rfl⟩ := hc
  exact hstft x (List.replicate L 0) (by rw [hL trial htrial x hx, List.length_replicate])

/-- Witness for C6 on a concrete 1-trial 2-channel tensor with 2 samples per
channel and a shape-uniform stand-in for `signal.stft`. -/
theorem C6_compute_stft_uniform_shape_witness :
    stftShape (((compute_stft
        (fun _ _ x => ([], [], [List.replicate x.length ((0 : ℚ), (0 : ℚ))]))
        [[[1, 2], [3, 4]]] 100).getD 0 []).getD 0 []) =
      stftShape ((fun (_ _ : ℚ) (x : List ℚ) =>
        (([] : List ℚ), ([] : List ℚ), [List.replicate x.length ((0 : ℚ), (0 : ℚ))])) 100 100
          (List.replicate 2 0)).2.2 :=
  C6_compute_stft_uniform_shape
    (fun _ _ x => ([], [], [List.replicate x.length ((0 : ℚ), (0 : ℚ))]))
    [[[1, 2], [3, 4]]] 100 2
    (by decide)
    (fun x y h => by simp [stftShape, h])
    ((compute_stft
        (fun _ _ x => ([], [], [List.replicate x.length ((0 : ℚ), (0 : ℚ))]))
        [[[1, 2], [3, 4]]] 100).getD 0 [])
    (by rw [List.getD_eq_getElem _ _ (by simp [compute_stft])]; exact List.getElem_mem _)
    (((compute_stft
        (fun _ _ x => ([], [], [List.replicate x.length ((0 : ℚ), (0 : ℚ))]))
        [[[1, 2], [3, 4]]] 100).getD 0 []).getD 0 [])
    (by rw [List.getD_eq_getElem _ _ (by simp [compute_stft]),
          List.getD_eq_getElem _ _ (by simp [compute_stft])]
        exact List.getElem_mem _)

/-! ## C10: normalize_stft always raises on nonempty input -/

/-- C10: `normalize_stft` evaluates the undefined name `stft_trials` in the
first iteration of its outer loop, so for every input with at least one trial
it raises a `NameError` (and, being pure up to that point, never modifies its
input); only for an input with zero trials does the loop body never run and
the function return normally (`None`). -/
theorem C10_normalize_stft {α : Type} (m : List α) :
    (m ≠ [] → normalize_stft m = .error .nameError) ∧
    (m = [] → normalize_stft m = .ok ()) := by
  cases m <;> simp [normalize_stft]

/-- Witness for C10: a one-trial input raises `NameError`, the empty input
returns normally. -/
theorem C10_normalize_stft_witness :
    normalize_stft [([[(1 : ℚ), 2]] : List (List ℚ))] = .error .nameError ∧
    normalize_stft ([] : List (List (List ℚ))) = .ok () :=
  ⟨(C10_normalize_stft [([[(1 : ℚ), 2]] : List (List ℚ))]).1 (by simp),
   (C10_normalize_stft ([] : List (List (List ℚ)))).2 rfl⟩

/-! ## C7 and C8: the per-label channel averaging -/

theorem meanAcrossTrials_perm (sel sel' : List (List (List ℚ))) (C T : ℕ)
    (hperm : sel.Perm sel')
    (hsh : ∀ m ∈ sel, m.length = C ∧ ∀ r ∈ m, r.length = T) :
    meanAcrossTrials sel = meanAcrossTrials sel' := by
  cases sel with
  | nil =>
    rw [hperm.symm.eq_nil]
  | cons m ms =>
    have hne' : sel' ≠ [] := by
      intro h
      rw [h] at hperm
      exact absurd hperm.eq_nil (by simp)
    obtain ⟨m', ms', rfl⟩ : ∃ m' ms', sel' = m' :: ms' := by
      cases hcase : sel' with
      | nil => exact absurd hcase hne'
      | cons a l => exact ⟨a, l, rfl⟩
    have hmC : m.length = C := (hsh m (by simp)).1
    have hm'mem : m' ∈ m :: ms := hperm.mem_iff.mpr (by simp)
    have hm'C : m'.length = C := (hsh m' hm'mem).1
    simp only [meanAcrossTrials]
    rw [hmC, hm'C]
    apply List.map_congr_left
    intro c hc
    have hcC : c < C := List.mem_range.mp hc
    have hrow : (m.getD c []).length = T := by
      rw [List.getD_eq_getElem _ _ (by omega : c < m.length)]
      exact (hsh m (by simp)).2 _ (List.getElem_mem _)
    have hrow' : (m'.getD c []).length = T := by
      rw [List.getD_eq_getElem _ _ (by omega : c < m'.length)]
      exact (hsh m' hm'mem).2 _ (List.getElem_mem _)
    rw [hrow, hrow']
    apply List.map_congr_left
    intro t _
    rw [(hperm.map (fun mm => (mm.getD c []).getD t 0)).sum_eq, hperm.length_eq]

/-- C7: the per-label channel averages of `extract_data_to_plot` are plain
arithmetic means over the trials carrying each label, so applying one and the
same permutation to the trial axis and to the label vector (stated as: the
zipped (trial, label) lists are permutations of each other) leaves the entire
output unchanged. -/
theorem C7_extract_data_to_plot_perm (cfg : PlotConfig) (ch_list : List String)
    (data data' : List (List (List ℚ))) (labels labels' : List ℤ) (C T : ℕ)
    (_hlen : data.length = labels.length) (_hlen' : data'.length = labels'.length)
    (hsh : ∀ m ∈ data, m.length = C ∧ ∀ r ∈ m, r.length = T)
    (hperm : (data.zip labels).Perm (data'.zip labels')) :
    extract_data_to_plot data ch_list labels cfg =
      extract_data_to_plot data' ch_list labels' cfg := by
  rw [extract_data_to_plot, extract_data_to_plot]
  apply List.map_congr_left
  intro label _
  have hselperm : (((data.zip labels).filter (fun p => p.2 == label)).map (fun p => p.1)).Perm
      (((data'.zip labels').filter (fun p => p.2 == label)).map (fun p => p.1)) :=
    (hperm.filter _).map _
  have hshsel : ∀ m ∈ ((data.zip labels).filter (fun p => p.2 == label)).map (fun p => p.1),
      m.length = C ∧ ∀ r ∈ m, r.length = T := by
    intro m hm
    apply hsh
    simp only [List.mem_map, List.mem_filter] at hm
    obtain ⟨p, ⟨hpz, _⟩, rfl⟩ := hm
    exact (List.of_mem_zip hpz).1
  simp only [meanAcrossTrials_perm _ _ C T hselperm hshsel]

/-- Witness for C7: swapping the two trials together with their labels leaves
the extracted averages unchanged. -/
theorem C7_extract_data_to_plot_perm_witness :
    extract_data_to_plot [[[1]], [[2]]] ["C3", "Cz"] [0, 1] config_plot =
      extract_data_to_plot [[[2]], [[1]]] ["C3", "Cz"] [1, 0] config_plot :=
  C7_extract_data_to_plot_perm config_plot ["C3", "Cz"]
    [[[1]], [[2]]] [[[2]], [[1]]] [0, 1] [1, 0] 1 1
    (by decide) (by decide) (by decide)
    (List.Perm.swap ([[(2 : ℚ)]], (1 : ℤ)) ([[(1 : ℚ)]], (0 : ℤ)) [])

/-- C8: a requested channel name with no exact match in the channel-name list
does not raise any error in `extract_data_to_plot` (the embedding is total):
the boolean mask `ch_list == ch` is all-false, so the selected block for that
channel is the empty/degenerate series `[]`. -/
theorem C8_extract_unmatched_channel (data : List (List (List ℚ))) (ch_list : List String)
    (labels : List ℤ) (cfg : PlotConfig) (ci : ℕ)
    (hci : ci < cfg.ch_to_plot.length)
    (hch : cfg.ch_to_plot.getD ci "" ∉ ch_list) :
    ∀ row ∈ extract_data_to_plot data ch_list labels cfg, row.getD ci [[1]] = [] := by
  rw [List.getD_eq_getElem _ _ hci] at hch
  intro row hrow
  simp only [extract_data_to_plot, List.mem_map] at hrow
  obtain ⟨label, _, rfl⟩ := hrow
  rw [List.getD_eq_getElem _ _ (by simpa using hci), List.getElem_map]
  have hfil : ∀ (avg : List (List ℚ)),
      (avg.zip ch_list).filter (fun p => p.2 == cfg.ch_to_plot[ci]) = [] := by
    intro avg
    rw [List.filter_eq_nil_iff]
    intro p hp
    intro hbeq
    have hpe : p.2 = cfg.ch_to_plot[ci] := by simpa using hbeq
    exact hch (hpe ▸ (List.of_mem_zip hp).2)
  rw [hfil]
  rfl

/-- Witness for C8: requesting channel "C3" (first entry of the plot config)
against the channel-name list ["F1"] yields the empty series. -/
theorem C8_extract_unmatched_channel_witness :
    ((extract_data_to_plot [[[5]]] ["F1"] [0] config_plot).getD 0 []).getD 0 [[1]] = [] :=
  C8_extract_unmatched_channel [[[5]]] ["F1"] [0] config_plot 0
    (by decide) (by decide)
    ((extract_data_to_plot [[[5]]] ["F1"] [0] config_plot).getD 0 [])
    (by rw [List.getD_eq_getElem _ _ (by simp [extract_data_to_plot, config_plot])]
        exact List.getElem_mem _)
